import Mathlib

/-!
Verification of the Geolife import pipeline (relational `src/migrator.py` /
`src/geolife.py` and document-model `src/mongodb/importer.py`) against its
natural-language specification.

The embedding models the dataset as already read from disk: a `Dataset` holds
the user directories, each with its Trajectory files and parsed `labels.txt`
rows, plus the lines of `labeled_ids.txt`.  Timestamps are modelled as a
single `Nat` standing for the parsed `"date time"` value: both stores
(MySQL `DATETIME`, pandas `datetime64`) compare timestamps by their temporal
value, which the linear order on `Nat` represents.
-/

namespace Geolife

/-- One line of a Trajectory `.plt` file, with the fields the import reads
after `split(",")`: latitude, longitude, altitude, the fractional-day column,
and the timestamp parsed from the date and time columns.  The third (unused)
column is discarded by every reader and is not modelled. -/
structure SourceLine where
  latitude : String
  longitude : String
  altitude : String
  dateDays : String
  dt : Nat
deriving DecidableEq

/-- A Trajectory activity file: its file name (the last path component) and
its lines.  A real Geolife file has 6 header lines followed by one data line
per track point; the importers only ever access lines via `readlines()[6:]`
(or `skiprows=6`), so every line carries the fields of a data line and the
header lines are dropped unread. -/
structure ActivityFile where
  name : String
  lines : List SourceLine
deriving DecidableEq

/-- One row of a user's `labels.txt` after its single header line:
start timestamp, end timestamp, transportation mode (already stripped). -/
structure LabelLine where
  start_dt : Nat
  end_dt : Nat
  mode : String
deriving DecidableEq

/-- One user directory of `dataset/data`: the directory name, the files of
its `Trajectory` subdirectory, and the parsed rows of its `labels.txt`
(`[]` when the file is absent). -/
structure UserDir where
  name : String
  files : List ActivityFile
  labels : List LabelLine
deriving DecidableEq

/-- The dataset directory: the user directories in `os.listdir` order and
the lines of `labeled_ids.txt`. -/
structure Dataset where
  users : List UserDir
  labeledIds : List String
deriving DecidableEq

/-- `dir_name.isnumeric()`: non-empty and all digits. -/
def isNumericName (s : String) : Bool := !s.data.isEmpty && s.data.all Char.isDigit

/-- `split('.')[0]` of a file name: the prefix before the first dot. -/
def stem (s : String) : String := ⟨s.data.takeWhile (· ≠ '.')⟩

/-! ## Relational pipeline (`src/migrator.py`) -/

/-- A row of the `User` table. -/
structure UserRow where
  id : String
  has_labels : Bool
deriving DecidableEq

/-- A row of the `Activity` table.  `transportation_mode` is `none` (SQL
`NULL`) until a label `UPDATE` matches the row. -/
structure ActivityRow where
  id : String
  user_id : String
  start_dt : Nat
  end_dt : Nat
  transportation_mode : Option String
deriving DecidableEq

/-- A row of the `TrackPoint` table, as inserted by `seed_track_points`
(the auto-increment surrogate key is store-assigned and not modelled). -/
structure TrackPointRow where
  activity_id : String
  latitude : String
  longitude : String
  altitude : String
  date_days : String
  dt : Nat
deriving DecidableEq

/-- The three tables of the relational store. -/
structure RelStore where
  users : List UserRow
  activities : List ActivityRow
  trackPoints : List TrackPointRow
deriving DecidableEq

def RelStore.empty : RelStore := { users := [], activities := [], trackPoints := [] }

/-- `Migrator._get_user_ids`: the directory entries whose names are numeric
(the model keeps the whole directory, the source keeps its name). -/
def getUserIds (ds : Dataset) : List UserDir := ds.users.filter (fun u => isNumericName u.name)

/-- `Migrator._get_activity_files_for_user`: keep a file iff
`len(f.readlines()[6:]) <= max_track_points`; the `max_track_points`
parameter defaults to 2500 and no caller ever overrides it. -/
def getActivityFilesForUser (u : UserDir) : List ActivityFile :=
  u.files.filter (fun f => (f.lines.drop 6).length ≤ 2500)

/-- `Migrator._get_activity_id`: `f"{user_id}-{name.split('/')[-1].split('.')[0]}"`.
The source receives the absolute path and first takes the last `/`-separated
component, which is exactly the file's name; the model passes the name. -/
def getActivityId (fileName userId : String) : String := userId ++ "-" ++ stem fileName

/-- The body of `Migrator._make_activity_data` for one activity file:
`track_points = f.readlines()[6:]`, start from `track_points[0]`, end from
`track_points[-1]`.  On a file with no data rows `track_points[0]` raises
`IndexError`, modelled as `none`. -/
def makeActivityFromFile (userId : String) (f : ActivityFile) : Option ActivityRow :=
  match f.lines.drop 6 with
  | [] => none
  | r :: rs =>
    some { id := getActivityId f.name userId
           user_id := userId
           start_dt := r.dt
           end_dt := ((r :: rs).getLast (List.cons_ne_nil r rs)).dt
           transportation_mode := none }

/-- A Python loop that builds a list by appending `g x` for each `x`; an
exception raised for any element (modelled by `none`) aborts the whole call. -/
def mapOrFail (g : α → Option β) : List α → Option (List β)
  | [] => some []
  | x :: xs =>
    match g x, mapOrFail g xs with
    | some y, some ys => some (y :: ys)
    | _, _ => none

/-- `Migrator._make_activity_data`: for every numeric user directory, for
every included activity file, one `Activity` row. -/
def makeActivityData (ds : Dataset) : Option (List ActivityRow) :=
  match mapOrFail (fun u => mapOrFail (makeActivityFromFile u.name) (getActivityFilesForUser u)) (getUserIds ds) with
  | some perUser => some perUser.flatten
  | none => none

/-- One parameter tuple of the transportation-mode `UPDATE`:
`(mode.strip(), id, start_datetime, end_datetime)`. -/
structure RelLabel where
  mode : String
  user_id : String
  start_dt : Nat
  end_dt : Nat
deriving DecidableEq

/-- The `WHERE` clause of the mode `UPDATE`:
`user_id = %s AND start_datetime >= %s AND end_datetime <= %s`
with parameters `(l.user_id, l.start_dt, l.end_dt)`. -/
def relLabelApplies (l : RelLabel) (a : ActivityRow) : Bool :=
  a.user_id == l.user_id && decide (l.start_dt ≤ a.start_dt) && decide (a.end_dt ≤ l.end_dt)

/-- The effect of one `UPDATE Activity SET transportation_mode = %s WHERE ...`
on one row. -/
def applyLabelUpdate (l : RelLabel) (a : ActivityRow) : ActivityRow :=
  if relLabelApplies l a then { a with transportation_mode := some l.mode } else a

/-- `cursor.executemany` of the mode `UPDATE` over a label sequence: each
label updates every matching row of the whole table, labels run in order, so
a later matching label overwrites an earlier one. -/
def executeLabelUpdates (labels : List RelLabel) (acts : List ActivityRow) : List ActivityRow :=
  labels.foldl (fun acc l => acc.map (applyLabelUpdate l)) acts

/-- `Migrator._get_labels_for_user_from_dataset`: the user's `labels.txt`
rows as `UPDATE` parameter tuples. -/
def getLabelsForUser (u : UserDir) : List RelLabel :=
  u.labels.map (fun l => { mode := l.mode, user_id := u.name, start_dt := l.start_dt, end_dt := l.end_dt })

/-- The label sequence run by `Migrator._update_activity_transportation_modes`:
for each id of `labeled_ids.txt` in file order, that user's labels in file
order.  (The source opens `data/<id>/labels.txt` directly; a labeled id with
no directory would raise, which well-formed datasets avoid.) -/
def relationalLabels (ds : Dataset) : List RelLabel :=
  (ds.labeledIds.map (fun lid =>
    match ds.users.find? (fun u => u.name == lid) with
    | some u => getLabelsForUser u
    | none => [])).flatten

/-- `Migrator._update_activity_transportation_modes`. -/
def updateActivityTransportationModes (ds : Dataset) (acts : List ActivityRow) : List ActivityRow :=
  executeLabelUpdates (relationalLabels ds) acts

/-- The `ON DUPLICATE KEY UPDATE has_labels=VALUES(has_labels)` effect on one
existing row. -/
def userUpdate (r u : UserRow) : UserRow :=
  if u.id == r.id then { u with has_labels := r.has_labels } else u

/-- One row-effect of
`INSERT INTO User(id, has_labels) VALUES (%s, %s) ON DUPLICATE KEY UPDATE has_labels=VALUES(has_labels)`:
insert when `id` is absent, otherwise update `has_labels` in place. -/
def upsertUser (users : List UserRow) (r : UserRow) : List UserRow :=
  if users.any (fun u => u.id == r.id) then users.map (userUpdate r)
  else users ++ [r]

/-- The data built by `Migrator.seed_users`: one `(user_id, has_labels)`
pair per numeric directory, `has_labels` iff the id occurs in
`labeled_ids.txt`. -/
def userSeedData (ds : Dataset) : List UserRow :=
  (getUserIds ds).map (fun u => { id := u.name, has_labels := ds.labeledIds.contains u.name })

/-- `Migrator.seed_users`. -/
def seedUsers (ds : Dataset) (s : RelStore) : RelStore :=
  { s with users := (userSeedData ds).foldl upsertUser s.users }

/-- One row-effect of
`INSERT IGNORE INTO Activity(id, user_id, start_datetime, end_datetime)`:
insert only when the primary key `id` is absent. -/
def insertIgnoreActivity (acts : List ActivityRow) (a : ActivityRow) : List ActivityRow :=
  if acts.any (fun b => b.id == a.id) then acts else acts ++ [a]

/-- `Migrator.seed_activities`: build the activity data (`none` = the
`IndexError` of `_make_activity_data`, raised before any insert), insert it
with `INSERT IGNORE`, then run the transportation-mode updates. -/
def seedActivities (ds : Dataset) (s : RelStore) : Option RelStore :=
  match makeActivityData ds with
  | none => none
  | some rows =>
    some { s with activities := updateActivityTransportationModes ds (rows.foldl insertIgnoreActivity s.activities) }

/-- The data built by `Migrator.seed_track_points`: for every numeric user
directory, for every included file, one `TrackPoint` row per data line,
referencing the derived activity id. -/
def trackPointSeedData (ds : Dataset) : List TrackPointRow :=
  ((getUserIds ds).map (fun u =>
    ((getActivityFilesForUser u).map (fun f =>
      (f.lines.drop 6).map (fun r =>
        { activity_id := getActivityId f.name u.name
          latitude := r.latitude
          longitude := r.longitude
          altitude := r.altitude
          date_days := r.dateDays
          dt := r.dt }))).flatten)).flatten

/-- `for i in range(0, len(data), batch_size): data[i:i+batch_size]`:
the consecutive slices written by the batch loop of `seed_track_points`.
`range(0, n, b)` enumerates `0, b, 2b, ...` with `⌈n / b⌉` elements. -/
def chunks (b : Nat) (xs : List α) : List (List α) :=
  (List.range ((xs.length + b - 1) / b)).map (fun i => (xs.drop (i * b)).take b)

/-- `Migrator.seed_track_points`: plain `INSERT INTO TrackPoint ...` of the
data, one `executemany` call per chunk of 120000 rows, in order. -/
def seedTrackPoints (ds : Dataset) (s : RelStore) : RelStore :=
  { s with trackPoints := (chunks 120000 (trackPointSeedData ds)).foldl (fun acc c => acc ++ c) s.trackPoints }

/-- The errors `Migrator.seed` can raise: the `assert self.migrated`
precondition failure, and the `IndexError` of `_make_activity_data` on an
included file with no data rows. -/
inductive SeedError
  | precondition
  | indexError
deriving DecidableEq

/-- `Migrator.seed`: assert the migrated flag, then seed users, activities
and track points in order.  Each stage commits before the next starts, so a
crash in `seed_activities` leaves the users already committed. -/
def seed (migrated : Bool) (ds : Dataset) (s : RelStore) : RelStore × Option SeedError :=
  if migrated then
    match seedActivities ds (seedUsers ds s) with
    | none => (seedUsers ds s, some SeedError.indexError)
    | some s2 => (seedTrackPoints ds s2, none)
  else (s, some SeedError.precondition)

/-- Sequential execution of the migration statements inside the single
transaction of `Migrator.migrate`: each statement either executes without
error (`true`) or raises (`false`), and the first failure aborts the loop. -/
def runMigrations : List Bool → Bool
  | [] => true
  | st :: rest => if st then runMigrations rest else false

/-- The observable outcome of `Migrator.migrate`: the `migrated` flag and
the statements whose effects remain committed after the call. -/
structure MigrateResult where
  migrated : Bool
  committed : List Bool
deriving DecidableEq

/-- `Migrator.migrate`: run all statements (in lexicographical file order,
which does not matter here) inside one transaction; on success commit them
all and set `migrated := True`, on any failure roll the whole transaction
back — no statement of the run stays committed — and leave the flag as it
was. -/
def migrate (m : Bool) (stmts : List Bool) : MigrateResult :=
  if runMigrations stmts then { migrated := true, committed := stmts }
  else { migrated := m, committed := [] }

/-! ## Document-model pipeline (`src/mongodb/importer.py`)

`ObjectId()` draws a fresh identifier; the model threads a generator
counter `gen` through the import and hands out `gen, gen+1, ...`.  Distinct
runs of the process observe distinct generator states (ObjectIds embed
timestamp and random bytes), so a repeated import holds a different `gen`. -/

/-- A document of the `users` collection before backreferences:
`_id` is `int(directory_name)`. -/
structure MUser where
  mongoId : Nat
  has_labels : Bool
deriving DecidableEq

/-- A `users` document after `_add_back_reference_for_activities_on_users`. -/
structure MUserB where
  mongoId : Nat
  has_labels : Bool
  activities : List Nat
deriving DecidableEq

/-- An `activities` document as built by
`import_activities_and_track_points_df`, before the transportation-mode
merge: `_id` is a fresh ObjectId, `user_id` the integer user id. -/
structure MActivity where
  mongoId : Nat
  user_id : Nat
  start_dt : Nat
  end_dt : Nat
deriving DecidableEq

/-- An `activities` document after `_add_transportation_mode_to_activities`
(`""` means unlabeled). -/
structure MActivityM where
  mongoId : Nat
  user_id : Nat
  start_dt : Nat
  end_dt : Nat
  transportation_mode : String
deriving DecidableEq

/-- An `activities` document after
`_add_back_reference_for_track_points_on_activities`. -/
structure MActivityB where
  mongoId : Nat
  user_id : Nat
  start_dt : Nat
  end_dt : Nat
  transportation_mode : String
  track_points : List Nat
deriving DecidableEq

/-- A `track_points` document as first built: a reference to its activity's
ObjectId, the padded user id, the raw columns and the parsed timestamp.
(The GeoJSON `location` column duplicates longitude/latitude for the spatial
index only and is not modelled.) -/
structure MTrackPoint where
  activity_id : Nat
  user_id : String
  latitude : String
  longitude : String
  altitude : String
  dt : Nat
deriving DecidableEq

/-- A `track_points` document after the transportation-mode merge
(`none` when the left join found no activity) and `_add_mongo_object_id`. -/
structure MTrackPointI where
  mongoId : Nat
  activity_id : Nat
  user_id : String
  latitude : String
  longitude : String
  altitude : String
  dt : Nat
  transportation_mode : Option String
deriving DecidableEq

/-- A row of the concatenated per-user label frame built by
`_add_transportation_mode_to_activities`. -/
structure MLabel where
  start_dt : Nat
  end_dt : Nat
  transportation_mode : String
  user_id : Nat
deriving DecidableEq

/-- `int(f)` of a numeric directory name. -/
def natOfName (s : String) : Nat :=
  s.data.foldl (fun acc c => acc * 10 + (c.toNat - '0'.toNat)) 0

/-- `"{:03d}".format(user_id)`. -/
def pad3 (n : Nat) : String :=
  if n < 10 then "00" ++ toString n
  else if n < 100 then "0" ++ toString n
  else toString n

/-- `Importer.import_user_df`: integer ids of all non-hidden directory
names, sorted ascending, each flagged by membership in `labeled_ids.txt`. -/
def importUserDf (ds : Dataset) : List MUser :=
  let ids := ((ds.users.filter (fun u => !(u.name.data.head? == some '.'))).map
    (fun u => natOfName u.name)).insertionSort (· ≤ ·)
  ids.map (fun i => { mongoId := i, has_labels := (ds.labeledIds.map natOfName).contains i })

/-- The concatenated label frame of
`_add_transportation_mode_to_activities`: for every user flagged
`has_labels`, its `labels.txt` rows tagged with the integer user id, users
in `users_df` order. -/
def mongoLabels (ds : Dataset) : List MLabel :=
  (((importUserDf ds).filter (fun u => u.has_labels)).map (fun u =>
    match ds.users.find? (fun d => d.name == pad3 u.mongoId) with
    | some d => d.labels.map (fun l =>
        { start_dt := l.start_dt, end_dt := l.end_dt, transportation_mode := l.mode, user_id := u.mongoId })
    | none => [])).flatten

/-- The merge key of the label join:
`on=["start_datetime", "end_datetime", "user_id"]`, compared for an
activity `a` against a label row `l`. -/
def labelKeyMatches (a : MActivity) (l : MLabel) : Bool :=
  l.start_dt == a.start_dt && l.end_dt == a.end_dt && l.user_id == a.user_id

/-- `labels_df.drop_duplicates(["start_datetime", "end_datetime", "user_id"])`:
keep the first row of each key. -/
def dropDuplicateLabels (seen : List (Nat × Nat × Nat)) : List MLabel → List MLabel
  | [] => []
  | l :: rest =>
    if seen.contains (l.start_dt, l.end_dt, l.user_id) then dropDuplicateLabels seen rest
    else l :: dropDuplicateLabels ((l.start_dt, l.end_dt, l.user_id) :: seen) rest

/-- `Importer._add_transportation_mode_to_activities`: left-merge the
deduplicated label frame on the exact key (the deduplicated frame has at
most one row per key, so each activity row keeps its place and picks up at
most one mode), then `fillna("")`. -/
def addTransportationModeToActivities (labels : List MLabel) (acts : List MActivity) : List MActivityM :=
  acts.map (fun a =>
    match (dropDuplicateLabels [] labels).find? (labelKeyMatches a) with
    | some l =>
      { mongoId := a.mongoId, user_id := a.user_id, start_dt := a.start_dt
        end_dt := a.end_dt, transportation_mode := l.transportation_mode }
    | none =>
      { mongoId := a.mongoId, user_id := a.user_id, start_dt := a.start_dt
        end_dt := a.end_dt, transportation_mode := "" })

/-- The per-user file loop of `import_activities_and_track_points_df`:
a file enters iff `len(f.readlines()) <= activity_line_limit + HEADER_SIZE`;
each included file is read with `skiprows=6`, gets a fresh activity ObjectId,
one track-point row per data line, and an activity tuple whose start and end
are `datetime.iloc[0]` and `datetime.iloc[-1]` — `iloc[0]` on a file with no
data rows raises `IndexError`, modelled as `none`. -/
def mongoImportFiles (limit uid : Nat) (padded : String) :
    Nat → List ActivityFile → Option (List MActivity × List MTrackPoint × Nat)
  | gen, [] => some ([], [], gen)
  | gen, f :: rest =>
    if f.lines.length ≤ limit + 6 then
      match f.lines.drop 6 with
      | [] => none
      | r :: rs =>
        match mongoImportFiles limit uid padded (gen + 1) rest with
        | some (as, ts, g) =>
          some ({ mongoId := gen, user_id := uid, start_dt := r.dt
                  end_dt := ((r :: rs).getLast (List.cons_ne_nil r rs)).dt } :: as,
                (r :: rs).map (fun p =>
                  { activity_id := gen, user_id := padded, latitude := p.latitude
                    longitude := p.longitude, altitude := p.altitude, dt := p.dt }) ++ ts,
                g)
        | none => none
    else mongoImportFiles limit uid padded gen rest

/-- The user loop of `import_activities_and_track_points_df`: users in
`users_df` order; each user's `Trajectory` directory is located by the
padded id. -/
def mongoImportUsers (limit : Nat) (ds : Dataset) :
    Nat → List MUser → Option (List MActivity × List MTrackPoint × Nat)
  | gen, [] => some ([], [], gen)
  | gen, u :: rest =>
    let padded := pad3 u.mongoId
    let files :=
      match ds.users.find? (fun d => d.name == padded) with
      | some d => d.files
      | none => []
    match mongoImportFiles limit u.mongoId padded gen files with
    | none => none
    | some (as, ts, g) =>
      match mongoImportUsers limit ds g rest with
      | none => none
      | some (as2, ts2, g2) => some (as ++ as2, ts ++ ts2, g2)

/-- `Importer._add_transportation_mode_to_track_points`: left-merge the
activities' modes on `activity_id` (activity ObjectIds are unique, so the
first match is the match; no match leaves the column missing). -/
def trackPointMode (acts : List MActivityM) (tp : MTrackPoint) : Option String :=
  match acts.find? (fun a => a.mongoId == tp.activity_id) with
  | some a => some a.transportation_mode
  | none => none

/-- `Importer._add_mongo_object_id` applied to the track-point frame: every
row gets a fresh ObjectId from the generator. -/
def addMongoObjectId (acts : List MActivityM) (gen : Nat) (tps : List MTrackPoint) :
    List MTrackPointI × Nat :=
  (tps.enum.map (fun p =>
    { mongoId := gen + p.1, activity_id := p.2.activity_id, user_id := p.2.user_id
      latitude := p.2.latitude, longitude := p.2.longitude, altitude := p.2.altitude
      dt := p.2.dt, transportation_mode := trackPointMode acts p.2 }), gen + tps.length)

/-- `Importer.import_activities_and_track_points_df`. -/
def importActivitiesAndTrackPointsDf (limit : Nat) (ds : Dataset) (gen : Nat) :
    Option (List MActivityM × List MTrackPointI × Nat) :=
  match mongoImportUsers limit ds gen (importUserDf ds) with
  | none => none
  | some (acts, tps, g1) =>
    let actsM := addTransportationModeToActivities (mongoLabels ds) acts
    let (tpsI, g2) := addMongoObjectId actsM g1 tps
    some (actsM, tpsI, g2)

/-- `groupby(parent_key)["_id"].apply(list)` looked up for one parent, as the
left merge plus `fillna("").apply(list)` delivers it: the child `_id`s whose
key equals the parent's id, in frame order, `[]` when there are none. -/
def groupedChildIds (key : β → Nat) (childId : β → Nat) (pid : Nat) (children : List β) : List Nat :=
  (children.filter (fun c => key c == pid)).map childId

/-- `Importer._add_back_reference_for_track_points_on_activities`. -/
def addBackReferenceForTrackPointsOnActivities (acts : List MActivityM) (tps : List MTrackPointI) :
    List MActivityB :=
  acts.map (fun a =>
    { mongoId := a.mongoId, user_id := a.user_id, start_dt := a.start_dt
      end_dt := a.end_dt, transportation_mode := a.transportation_mode
      track_points := groupedChildIds MTrackPointI.activity_id MTrackPointI.mongoId a.mongoId tps })

/-- `Importer._add_back_reference_for_activities_on_users`. -/
def addBackReferenceForActivitiesOnUsers (users : List MUser) (acts : List MActivityM) :
    List MUserB :=
  users.map (fun u =>
    { mongoId := u.mongoId, has_labels := u.has_labels
      activities := groupedChildIds MActivityM.user_id MActivityM.mongoId u.mongoId acts })

/-- The document store: the existing collection names and the three
collections' contents. -/
structure MongoStore where
  collections : List String
  users : List MUserB
  activities : List MActivityB
  track_points : List MTrackPointI
deriving DecidableEq

/-- `Importer.imported`: some collection already exists. -/
def imported (s : MongoStore) : Bool := !s.collections.isEmpty

/-- How `Importer.import_with_backreferences` can end without importing:
the already-imported warning, or the `IndexError` on an included file with
no data rows. -/
inductive MongoImportError
  | alreadyImported
  | indexError
deriving DecidableEq

/-- `Importer.import_with_backreferences`: abort with a warning and no store
mutation when collections already exist; otherwise build users, activities
and track points, attach both backreference lists, create the collections
and insert everything.  All frames are built before the first insert, so the
`IndexError` also leaves the store untouched. -/
def importWithBackreferences (limit : Nat) (ds : Dataset) (gen : Nat) (s : MongoStore) :
    MongoStore × Nat × Option MongoImportError :=
  if imported s then (s, gen, some MongoImportError.alreadyImported)
  else
    match importActivitiesAndTrackPointsDf limit ds gen with
    | none => (s, gen, some MongoImportError.indexError)
    | some (actsM, tpsI, g) =>
      ({ collections := ["users", "activities", "track_points"]
         users := addBackReferenceForActivitiesOnUsers (importUserDf ds) actsM
         activities := addBackReferenceForTrackPointsOnActivities actsM tpsI
         track_points := tpsI }, g, none)

/-! ## Proof-support definitions -/

/-- The cumulative effect on one `User` row of replaying a seed-data list:
fold of `userUpdate`. -/
def userFold (data : List UserRow) (u : UserRow) : UserRow :=
  data.foldl (fun x r => userUpdate r x) u

/-- The `has_labels` value of the row with id `i` after replaying `data`
over an initial value `b`: the last matching entry wins. -/
def hlAfter (data : List UserRow) (i : String) (b : Bool) : Bool :=
  data.foldl (fun acc r => if i == r.id then r.has_labels else acc) b

/-- The cumulative effect on one `Activity` row of replaying a label
sequence: fold of `applyLabelUpdate`. -/
def rowUpdate (labels : List RelLabel) (a : ActivityRow) : ActivityRow :=
  labels.foldl (fun x l => applyLabelUpdate l x) a

/-- The last label of the sequence whose `WHERE` clause matches the row —
the one whose `UPDATE` wins. -/
def lastApplicableLabel (labels : List RelLabel) (a : ActivityRow) : Option RelLabel :=
  match labels with
  | [] => none
  | l :: rest =>
    match lastApplicableLabel rest a with
    | some l' => some l'
    | none => if relLabelApplies l a then some l else none

/-- The relational mode backfill as it actually behaves (the amended claim):
every row receives the mode of the last label whose interval contains the
row's interval for the row's user, and keeps its previous mode when no label
matches. -/
def lastContainingLabelModes (labels : List RelLabel) (acts : List ActivityRow) : List ActivityRow :=
  acts.map (fun a =>
    { a with transportation_mode :=
        match lastApplicableLabel labels a with
        | some l => some l.mode
        | none => a.transportation_mode })

/-- The label matching the spec's words for the document path: an activity
receives mode `m` iff the first label row with exactly equal start, end and
user has mode `m`; otherwise the empty mode. -/
def exactMatchTransportationModes (labels : List MLabel) (acts : List MActivity) : List MActivityM :=
  acts.map (fun a =>
    match labels.find? (labelKeyMatches a) with
    | some l =>
      { mongoId := a.mongoId, user_id := a.user_id, start_dt := a.start_dt
        end_dt := a.end_dt, transportation_mode := l.transportation_mode }
    | none =>
      { mongoId := a.mongoId, user_id := a.user_id, start_dt := a.start_dt
        end_dt := a.end_dt, transportation_mode := "" })

/-- The activity ObjectIds a document-path import run assigns. -/
def mongoActivityIds (ds : Dataset) (gen : Nat) : Option (List Nat) :=
  match importActivitiesAndTrackPointsDf 2500 ds gen with
  | some (acts, _, _) => some (acts.map (fun a => a.mongoId))
  | none => none

/-! ## Concrete fixtures -/

/-- A header line; the importers drop the first six lines unread. -/
def headerLine : SourceLine :=
  { latitude := "", longitude := "", altitude := "", dateDays := "", dt := 0 }

/-- A data line with timestamp `t`. -/
def lineAt (t : Nat) : SourceLine :=
  { latitude := "39.9", longitude := "116.3", altitude := "492", dateDays := "39448.0", dt := t }

/-- A well-formed activity file with two chronological track points. -/
def fileTwoPoints : ActivityFile :=
  { name := "20081023025304.plt", lines := List.replicate 6 headerLine ++ [lineAt 100, lineAt 200] }

/-- A dataset with one labeled user owning one two-point activity whose
label matches the activity span exactly. -/
def dsOne : Dataset :=
  { users := [{ name := "010", files := [fileTwoPoints]
                labels := [{ start_dt := 100, end_dt := 200, mode := "walk" }] }]
    labeledIds := ["010"] }

/-- The relational store after one successful seed of `dsOne`. -/
def relSeedOnce : RelStore := (seed true dsOne RelStore.empty).1

/-- An activity file with six lines and hence zero data rows. -/
def fileNoPoints : ActivityFile :=
  { name := "20080101000000.plt", lines := List.replicate 6 headerLine }

/-- A dataset whose only user owns only the zero-data-row file. -/
def dsEmptyFile : Dataset :=
  { users := [{ name := "000", files := [fileNoPoints], labels := [] }], labeledIds := [] }

/-- An activity file whose two data rows are in reverse chronological
order. -/
def fileDescending : ActivityFile :=
  { name := "20090101000000.plt", lines := List.replicate 6 headerLine ++ [lineAt 5, lineAt 3] }

/-- A file with exactly 2500 data rows (2506 lines). -/
def file2500 : ActivityFile := { name := "a.plt", lines := List.replicate 2506 headerLine }

/-- A file with exactly 2501 data rows (2507 lines). -/
def file2501 : ActivityFile := { name := "b.plt", lines := List.replicate 2507 headerLine }

/-- A document store in which the collections already exist. -/
def mongoStoreExisting : MongoStore :=
  { collections := ["users", "activities", "track_points"]
    users := [], activities := [], track_points := [] }

/-- The activity rows `_make_activity_data` builds for `dsOne`. -/
def dsOneRows : List ActivityRow := (makeActivityData dsOne).getD []

/-- A concrete mode-merged activity document. -/
def actW : MActivityM :=
  { mongoId := 7, user_id := 10, start_dt := 100, end_dt := 200, transportation_mode := "walk" }

/-- Two concrete track-point documents owned by `actW`. -/
def tpsW : List MTrackPointI :=
  [{ mongoId := 21, activity_id := 7, user_id := "010", latitude := "39.9", longitude := "116.3"
     altitude := "492", dt := 100, transportation_mode := some "walk" },
   { mongoId := 22, activity_id := 7, user_id := "010", latitude := "39.9", longitude := "116.3"
     altitude := "492", dt := 200, transportation_mode := some "walk" }]

/-- `actW` with its expected track-point backreference list. -/
def actHeadW : MActivityB :=
  { mongoId := 7, user_id := 10, start_dt := 100, end_dt := 200, transportation_mode := "walk"
    track_points := [21, 22] }

/-- `actW` with an empty backreference list (no track points in the frame). -/
def actHeadW0 : MActivityB :=
  { mongoId := 7, user_id := 10, start_dt := 100, end_dt := 200, transportation_mode := "walk"
    track_points := [] }

/-- A concrete user document owning `actW`. -/
def userW : MUser := { mongoId := 10, has_labels := true }

/-- `userW` with its expected activity backreference list. -/
def userHeadW : MUserB := { mongoId := 10, has_labels := true, activities := [7] }

/-! ## Lemmas about the batch chunking -/

theorem chunks_nil (b : Nat) : chunks b ([] : List α) = [] := by
  rcases Nat.eq_zero_or_pos b with hb | hb
  · subst hb; simp [chunks]
  · have h : (b - 1) / b = 0 := Nat.div_eq_of_lt (by omega)
    simp [chunks, h]

theorem chunks_cons (b : Nat) (hb : 0 < b) (xs : List α) (hx : xs ≠ []) :
    chunks b xs = xs.take b :: chunks b (xs.drop b) := by
  have hn : 1 ≤ xs.length := List.length_pos.mpr hx
  have hk : (xs.length + b - 1) / b = ((xs.drop b).length + b - 1) / b + 1 := by
    rw [List.length_drop]
    rcases Nat.le_total xs.length b with h | h
    · have h1 : xs.length - b = 0 := Nat.sub_eq_zero_of_le h
      have h2 : xs.length + b - 1 = (xs.length - 1) + b := by omega
      rw [h1, h2, Nat.add_div_right _ hb]
      have h3 : (xs.length - 1) / b = 0 := Nat.div_eq_of_lt (by omega)
      have h4 : (0 + b - 1) / b = 0 := Nat.div_eq_of_lt (by omega)
      rw [h3, h4]
    · have h2 : xs.length + b - 1 = (xs.length - 1) + b := by omega
      have h3 : xs.length - b + b - 1 = xs.length - 1 := by omega
      rw [h2, Nat.add_div_right _ hb, h3]
  unfold chunks
  rw [hk, List.range_succ_eq_map, List.map_cons, List.map_map]
  congr 1
  · simp
  · apply List.map_congr_left
    intro i _
    show (xs.drop (Nat.succ i * b)).take b = ((xs.drop b).drop (i * b)).take b
    rw [List.drop_drop, Nat.succ_mul, Nat.add_comm (i * b) b]

theorem chunks_flatten {b : Nat} (hb : 0 < b) : ∀ xs : List α, (chunks b xs).flatten = xs
  | [] => by simp [chunks_nil]
  | x :: l => by
    rw [chunks_cons b hb (x :: l) (List.cons_ne_nil x l), List.flatten_cons,
      chunks_flatten hb ((x :: l).drop b), List.take_append_drop]
termination_by xs => xs.length
decreasing_by
  simp only [List.length_drop, List.length_cons]
  omega

theorem chunks_map_length (b : Nat) (xs : List α) :
    (chunks b xs).map List.length
      = (List.range ((xs.length + b - 1) / b)).map (fun i => min b (xs.length - i * b)) := by
  unfold chunks
  rw [List.map_map]
  refine List.map_congr_left (fun i _ => ?hi)
  simp [List.length_take, List.length_drop]

theorem foldl_append_eq (ls : List (List α)) (init : List α) :
    ls.foldl (fun acc c => acc ++ c) init = init ++ ls.flatten := by
  induction ls generalizing init with
  | nil => simp
  | cons c cs ih => simp [ih, List.append_assoc]

/-! ## Lemmas about the `User` upsert -/

theorem userUpdate_id (r u : UserRow) : (userUpdate r u).id = u.id := by
  unfold userUpdate; split <;> rfl

theorem userUpdate_hl (r u : UserRow) :
    (userUpdate r u).has_labels = if u.id == r.id then r.has_labels else u.has_labels := by
  unfold userUpdate; split <;> simp_all

theorem any_id_upsertUser (users : List UserRow) (r : UserRow) (x : String)
    (h : users.any (fun u => u.id == x) = true) :
    (upsertUser users r).any (fun u => u.id == x) = true := by
  unfold upsertUser
  split
  · simp only [List.any_eq_true] at h ⊢
    obtain ⟨u, hu, hux⟩ := h
    exact ⟨userUpdate r u, List.mem_map_of_mem _ hu, by rw [userUpdate_id]; exact hux⟩
  · simp only [List.any_eq_true] at h ⊢
    obtain ⟨u, hu, hux⟩ := h
    exact ⟨u, List.mem_append_left _ hu, hux⟩

theorem any_id_upsertUser_self (users : List UserRow) (r : UserRow) :
    (upsertUser users r).any (fun u => u.id == r.id) = true := by
  unfold upsertUser
  split
  · rename_i h
    simp only [List.any_eq_true] at h ⊢
    obtain ⟨u, hu, hux⟩ := h
    exact ⟨userUpdate r u, List.mem_map_of_mem _ hu, by rw [userUpdate_id]; exact hux⟩
  · simp only [List.any_eq_true]
    exact ⟨r, List.mem_append_right _ (List.mem_singleton_self r), by simp⟩

theorem any_id_foldl_upsert (data t : List UserRow) (x : String)
    (h : t.any (fun u => u.id == x) = true) :
    (data.foldl upsertUser t).any (fun u => u.id == x) = true := by
  induction data generalizing t with
  | nil => exact h
  | cons r rest ih => exact ih _ (any_id_upsertUser _ _ _ h)

theorem mem_data_present (data t : List UserRow) (r : UserRow) (hr : r ∈ data) :
    (data.foldl upsertUser t).any (fun u => u.id == r.id) = true := by
  induction data generalizing t with
  | nil => cases hr
  | cons a rest ih =>
    rcases List.mem_cons.mp hr with h | h
    · rw [h]
      exact any_id_foldl_upsert rest _ _ (any_id_upsertUser_self t _)
    · exact ih _ h

theorem foldl_upsert_eq_map (data t : List UserRow)
    (h : ∀ r ∈ data, t.any (fun u => u.id == r.id) = true) :
    data.foldl upsertUser t = t.map (userFold data) := by
  induction data generalizing t with
  | nil => exact (List.map_id' t).symm
  | cons r rest ih =>
    have h1 : t.any (fun u => u.id == r.id) = true := h r (List.mem_cons_self r rest)
    show rest.foldl upsertUser (upsertUser t r) = t.map (userFold (r :: rest))
    rw [show upsertUser t r = t.map (userUpdate r) from by unfold upsertUser; rw [if_pos h1]]
    have h2 : ∀ r' ∈ rest, (t.map (userUpdate r)).any (fun u => u.id == r'.id) = true := by
      intro r' hr'
      have h3 := h r' (List.mem_cons_of_mem _ hr')
      simp only [List.any_eq_true] at h3 ⊢
      obtain ⟨u, hu, hux⟩ := h3
      exact ⟨userUpdate r u, List.mem_map_of_mem _ hu, by rw [userUpdate_id]; exact hux⟩
    rw [ih _ h2, List.map_map]
    exact List.map_congr_left (fun u _ => rfl)

theorem userFold_eq (data : List UserRow) (u : UserRow) :
    userFold data u = { id := u.id, has_labels := hlAfter data u.id u.has_labels } := by
  induction data generalizing u with
  | nil => rfl
  | cons r rest ih =>
    show userFold rest (userUpdate r u) = _
    rw [ih (userUpdate r u), userUpdate_id, userUpdate_hl]
    rfl

theorem hlAfter_of_mem (data : List UserRow) (i : String) (b b' : Bool)
    (h : ∃ r ∈ data, (i == r.id) = true) :
    hlAfter data i b = hlAfter data i b' := by
  induction data generalizing b b' with
  | nil => simp at h
  | cons r rest ih =>
    show hlAfter rest i (if i == r.id then r.has_labels else b)
        = hlAfter rest i (if i == r.id then r.has_labels else b')
    by_cases hir : (i == r.id) = true
    · simp only [hir, if_true]
    · simp only [Bool.not_eq_true] at hir
      simp only [hir, Bool.false_eq_true, if_false]
      rcases h with ⟨r', hr', hir'⟩
      rcases List.mem_cons.mp hr' with h1 | h1
      · subst h1; rw [hir] at hir'; cases hir'
      · exact ih _ _ ⟨r', h1, hir'⟩

theorem hlAfter_of_not_mem (data : List UserRow) (i : String) (b : Bool)
    (h : ∀ r ∈ data, (i == r.id) = false) :
    hlAfter data i b = b := by
  induction data generalizing b with
  | nil => rfl
  | cons r rest ih =>
    show hlAfter rest i (if i == r.id then r.has_labels else b) = b
    rw [h r (List.mem_cons_self r rest)]
    simp only [Bool.false_eq_true, if_false]
    exact ih _ (fun r' hr' => h r' (List.mem_cons_of_mem _ hr'))

theorem mem_upsertUser (users : List UserRow) (r u : UserRow) (hu : u ∈ upsertUser users r)
    (hne : (u.id == r.id) = false) : u ∈ users := by
  unfold upsertUser at hu
  split at hu
  · obtain ⟨v, hv, hvu⟩ := List.mem_map.mp hu
    subst hvu
    by_cases hvr : (v.id == r.id) = true
    · exfalso
      rw [userUpdate_id] at hne
      rw [hvr] at hne; cases hne
    · have he : userUpdate r v = v := by
        unfold userUpdate
        simp only [Bool.not_eq_true] at hvr
        simp [hvr]
      rw [he]; exact hv
  · rcases List.mem_append.mp hu with h1 | h1
    · exact h1
    · exfalso
      rw [List.mem_singleton.mp h1] at hne
      simp at hne

theorem mem_foldl_upsert_of_no_id (data t : List UserRow) (u : UserRow)
    (hu : u ∈ data.foldl upsertUser t)
    (h : ∀ r ∈ data, (u.id == r.id) = false) : u ∈ t := by
  induction data generalizing t with
  | nil => exact hu
  | cons r rest ih =>
    have h1 : u ∈ upsertUser t r :=
      ih _ hu (fun r' hr' => h r' (List.mem_cons_of_mem _ hr'))
    exact mem_upsertUser t r u h1 (h r (List.mem_cons_self r rest))

theorem hl_eq_of_mem_upsertUser (users : List UserRow) (r u : UserRow)
    (hu : u ∈ upsertUser users r) (hid : (u.id == r.id) = true) :
    u.has_labels = r.has_labels := by
  unfold upsertUser at hu
  split at hu
  · obtain ⟨v, hv, hvu⟩ := List.mem_map.mp hu
    subst hvu
    rw [userUpdate_id] at hid
    rw [userUpdate_hl, hid]
    simp
  · rename_i hany
    rcases List.mem_append.mp hu with h1 | h1
    · exfalso
      apply hany
      simp only [List.any_eq_true]
      exact ⟨u, h1, hid⟩
    · rw [List.mem_singleton.mp h1]

theorem hlAfter_fixed (data t : List UserRow) (u : UserRow)
    (hu : u ∈ data.foldl upsertUser t) :
    hlAfter data u.id u.has_labels = u.has_labels := by
  induction data generalizing t with
  | nil => rfl
  | cons r rest ih =>
    have hu' : u ∈ rest.foldl upsertUser (upsertUser t r) := hu
    have ihr := ih _ hu'
    show hlAfter rest u.id (if u.id == r.id then r.has_labels else u.has_labels) = u.has_labels
    by_cases hur : (u.id == r.id) = true
    · rw [hur]
      simp only [if_true]
      by_cases hocc : ∃ r' ∈ rest, (u.id == r'.id) = true
      · rw [hlAfter_of_mem rest u.id r.has_labels u.has_labels hocc]
        exact ihr
      · push_neg at hocc
        have hall : ∀ r' ∈ rest, (u.id == r'.id) = false := by
          intro r' hr'
          have := hocc r' hr'
          simpa using this
        have hmem := mem_foldl_upsert_of_no_id rest (upsertUser t r) u hu' hall
        rw [hlAfter_of_not_mem rest u.id r.has_labels hall]
        exact (hl_eq_of_mem_upsertUser t r u hmem hur).symm
    · simp only [Bool.not_eq_true] at hur
      simp only [hur, Bool.false_eq_true, if_false]
      exact ihr

theorem foldl_upsert_idem (data s : List UserRow) :
    data.foldl upsertUser (data.foldl upsertUser s) = data.foldl upsertUser s := by
  have hpres : ∀ r ∈ data, (data.foldl upsertUser s).any (fun u => u.id == r.id) = true :=
    fun r hr => mem_data_present data s r hr
  rw [foldl_upsert_eq_map data _ hpres]
  have hfix : ∀ u ∈ data.foldl upsertUser s, userFold data u = u := by
    intro u hu
    rw [userFold_eq, hlAfter_fixed data s u hu]
  calc (data.foldl upsertUser s).map (userFold data)
      = (data.foldl upsertUser s).map (fun u => u) := List.map_congr_left hfix
    _ = data.foldl upsertUser s := List.map_id' _

/-! ## Lemmas about the `Activity` insert-ignore -/

theorem any_id_insertIgnore (acts : List ActivityRow) (a : ActivityRow) (x : String)
    (h : acts.any (fun b => b.id == x) = true) :
    (insertIgnoreActivity acts a).any (fun b => b.id == x) = true := by
  unfold insertIgnoreActivity
  split
  · exact h
  · simp only [List.any_eq_true] at h ⊢
    obtain ⟨b, hb, hbx⟩ := h
    exact ⟨b, List.mem_append_left _ hb, hbx⟩

theorem any_id_insertIgnore_self (acts : List ActivityRow) (a : ActivityRow) :
    (insertIgnoreActivity acts a).any (fun b => b.id == a.id) = true := by
  unfold insertIgnoreActivity
  split
  · assumption
  · simp only [List.any_eq_true]
    exact ⟨a, List.mem_append_right _ (List.mem_singleton_self a), by simp⟩

theorem any_id_foldl_insertIgnore (data t : List ActivityRow) (x : String)
    (h : t.any (fun b => b.id == x) = true) :
    (data.foldl insertIgnoreActivity t).any (fun b => b.id == x) = true := by
  induction data generalizing t with
  | nil => exact h
  | cons a rest ih => exact ih _ (any_id_insertIgnore _ _ _ h)

theorem foldl_insertIgnore_present (data t : List ActivityRow) (a : ActivityRow) (ha : a ∈ data) :
    (data.foldl insertIgnoreActivity t).any (fun b => b.id == a.id) = true := by
  induction data generalizing t with
  | nil => cases ha
  | cons c rest ih =>
    rcases List.mem_cons.mp ha with h | h
    · rw [h]
      exact any_id_foldl_insertIgnore rest _ _ (any_id_insertIgnore_self t _)
    · exact ih _ h

theorem foldl_insertIgnore_of_present (data t : List ActivityRow)
    (h : ∀ a ∈ data, t.any (fun b => b.id == a.id) = true) :
    data.foldl insertIgnoreActivity t = t := by
  induction data generalizing t with
  | nil => rfl
  | cons a rest ih =>
    show rest.foldl insertIgnoreActivity (insertIgnoreActivity t a) = t
    rw [show insertIgnoreActivity t a = t from by
      unfold insertIgnoreActivity; rw [if_pos (h a (List.mem_cons_self a rest))]]
    exact ih _ (fun b hb => h b (List.mem_cons_of_mem _ hb))

/-! ## Lemmas about the relational mode backfill -/

theorem applyLabelUpdate_user_id (l : RelLabel) (a : ActivityRow) :
    (applyLabelUpdate l a).user_id = a.user_id := by
  unfold applyLabelUpdate; split <;> rfl

theorem applyLabelUpdate_start (l : RelLabel) (a : ActivityRow) :
    (applyLabelUpdate l a).start_dt = a.start_dt := by
  unfold applyLabelUpdate; split <;> rfl

theorem applyLabelUpdate_end (l : RelLabel) (a : ActivityRow) :
    (applyLabelUpdate l a).end_dt = a.end_dt := by
  unfold applyLabelUpdate; split <;> rfl

theorem applyLabelUpdate_id (l : RelLabel) (a : ActivityRow) :
    (applyLabelUpdate l a).id = a.id := by
  unfold applyLabelUpdate; split <;> rfl

theorem relLabelApplies_applyLabelUpdate (l l' : RelLabel) (a : ActivityRow) :
    relLabelApplies l (applyLabelUpdate l' a) = relLabelApplies l a := by
  unfold relLabelApplies
  rw [applyLabelUpdate_user_id, applyLabelUpdate_start, applyLabelUpdate_end]

theorem executeLabelUpdates_eq_map (labels : List RelLabel) (acts : List ActivityRow) :
    executeLabelUpdates labels acts = acts.map (rowUpdate labels) := by
  induction labels generalizing acts with
  | nil => exact (List.map_id' acts).symm
  | cons l ls ih =>
    show executeLabelUpdates ls (acts.map (applyLabelUpdate l)) = _
    rw [ih, List.map_map]
    exact List.map_congr_left (fun a _ => rfl)

theorem lastApplicable_congr (ls : List RelLabel) (a a' : ActivityRow)
    (h : ∀ l, relLabelApplies l a' = relLabelApplies l a) :
    lastApplicableLabel ls a' = lastApplicableLabel ls a := by
  induction ls with
  | nil => rfl
  | cons l ls ih =>
    show (match lastApplicableLabel ls a' with
          | some l' => some l'
          | none => if relLabelApplies l a' then some l else none)
        = (match lastApplicableLabel ls a with
          | some l' => some l'
          | none => if relLabelApplies l a then some l else none)
    rw [ih, h l]

theorem rowUpdate_eq (labels : List RelLabel) (a : ActivityRow) :
    rowUpdate labels a = { a with transportation_mode :=
      (match lastApplicableLabel labels a with
       | some l => some l.mode
       | none => a.transportation_mode) } := by
  induction labels generalizing a with
  | nil => rfl
  | cons l ls ih =>
    show rowUpdate ls (applyLabelUpdate l a) = _
    rw [ih (applyLabelUpdate l a)]
    have hinv : lastApplicableLabel ls (applyLabelUpdate l a) = lastApplicableLabel ls a :=
      lastApplicable_congr ls a (applyLabelUpdate l a)
        (fun l' => relLabelApplies_applyLabelUpdate l' l a)
    rw [hinv]
    have hcons : lastApplicableLabel (l :: ls) a
        = match lastApplicableLabel ls a with
          | some l' => some l'
          | none => if relLabelApplies l a then some l else none := rfl
    rw [hcons]
    by_cases h : relLabelApplies l a = true
    · have ha : applyLabelUpdate l a = { a with transportation_mode := some l.mode } := by
        unfold applyLabelUpdate; rw [if_pos h]
      rw [ha]
      cases lastApplicableLabel ls a <;> simp [h]
    · have ha : applyLabelUpdate l a = a := by
        unfold applyLabelUpdate
        simp only [Bool.not_eq_true] at h
        simp [h]
      rw [ha]
      simp only [Bool.not_eq_true] at h
      cases lastApplicableLabel ls a <;> simp [h]

theorem rowUpdate_id (labels : List RelLabel) (a : ActivityRow) :
    (rowUpdate labels a).id = a.id := by
  rw [rowUpdate_eq]

theorem rowUpdate_idem (labels : List RelLabel) (a : ActivityRow) :
    rowUpdate labels (rowUpdate labels a) = rowUpdate labels a := by
  have h1 := rowUpdate_eq labels a
  have hc : lastApplicableLabel labels (rowUpdate labels a) = lastApplicableLabel labels a := by
    apply lastApplicable_congr
    intro l
    rw [h1]
    rfl
  rw [rowUpdate_eq labels (rowUpdate labels a), hc, h1]
  cases lastApplicableLabel labels a <;> rfl

theorem executeLabelUpdates_idem (labels : List RelLabel) (acts : List ActivityRow) :
    executeLabelUpdates labels (executeLabelUpdates labels acts) = executeLabelUpdates labels acts := by
  rw [executeLabelUpdates_eq_map, executeLabelUpdates_eq_map, List.map_map]
  exact List.map_congr_left (fun a _ => rowUpdate_idem labels a)

theorem executeLabelUpdates_any_id (labels : List RelLabel) (acts : List ActivityRow) (x : String) :
    (executeLabelUpdates labels acts).any (fun b => b.id == x)
      = acts.any (fun b => b.id == x) := by
  rw [executeLabelUpdates_eq_map, List.any_map]
  congr 1
  funext b
  simp only [Function.comp_apply, rowUpdate_id]

/-! ## Lemmas about the backreference builder -/

theorem mem_groupedChildIds (key childId : β → Nat) (pid : Nat) (children : List β) (x : Nat) :
    x ∈ groupedChildIds key childId pid children ↔ ∃ c ∈ children, key c = pid ∧ childId c = x := by
  unfold groupedChildIds
  simp only [List.mem_map, List.mem_filter, beq_iff_eq]
  constructor
  · rintro ⟨c, ⟨hc, hk⟩, hx⟩
    exact ⟨c, hc, hk, hx⟩
  · rintro ⟨c, hc, hk, hx⟩
    exact ⟨c, ⟨hc, hk⟩, hx⟩

theorem groupedChildIds_eq_nil (key childId : β → Nat) (pid : Nat) (children : List β)
    (h : ∀ c ∈ children, key c ≠ pid) : groupedChildIds key childId pid children = [] := by
  unfold groupedChildIds
  have hf : children.filter (fun c => key c == pid) = [] := by
    rw [List.filter_eq_nil_iff]
    intro c hc
    simp [h c hc]
  rw [hf]
  rfl

theorem groupedChildIds_nodup (key childId : β → Nat) (pid : Nat) (children : List β)
    (h : (children.map childId).Nodup) : (groupedChildIds key childId pid children).Nodup := by
  unfold groupedChildIds
  exact List.Sublist.nodup (List.Sublist.map childId (List.filter_sublist children)) h

/-! ## Lemmas about the document-path label merge -/

theorem find_dropDuplicateLabels (a : MActivity) (labels : List MLabel)
    (seen : List (Nat × Nat × Nat)) (hs : (a.start_dt, a.end_dt, a.user_id) ∉ seen) :
    (dropDuplicateLabels seen labels).find? (labelKeyMatches a)
      = labels.find? (labelKeyMatches a) := by
  induction labels generalizing seen with
  | nil => rfl
  | cons l rest ih =>
    by_cases hkey : seen.contains (l.start_dt, l.end_dt, l.user_id) = true
    · have hne : labelKeyMatches a l = false := by
        by_contra hx
        simp only [Bool.not_eq_false] at hx
        unfold labelKeyMatches at hx
        simp only [Bool.and_eq_true, beq_iff_eq] at hx
        obtain ⟨⟨h1, h2⟩, h3⟩ := hx
        apply hs
        have hmem : (l.start_dt, l.end_dt, l.user_id) ∈ seen := by
          simpa using hkey
        rw [h1, h2, h3] at hmem
        exact hmem
      have hstep : dropDuplicateLabels seen (l :: rest) = dropDuplicateLabels seen rest := by
        show (if seen.contains (l.start_dt, l.end_dt, l.user_id) = true
              then dropDuplicateLabels seen rest
              else l :: dropDuplicateLabels ((l.start_dt, l.end_dt, l.user_id) :: seen) rest)
            = dropDuplicateLabels seen rest
        rw [if_pos hkey]
      rw [hstep, ih seen hs, List.find?_cons_of_neg _ (by simp [hne])]
    · have hstep : dropDuplicateLabels seen (l :: rest)
          = l :: dropDuplicateLabels ((l.start_dt, l.end_dt, l.user_id) :: seen) rest := by
        show (if seen.contains (l.start_dt, l.end_dt, l.user_id) = true
              then dropDuplicateLabels seen rest
              else l :: dropDuplicateLabels ((l.start_dt, l.end_dt, l.user_id) :: seen) rest)
            = l :: dropDuplicateLabels ((l.start_dt, l.end_dt, l.user_id) :: seen) rest
        rw [if_neg hkey]
      rw [hstep]
      by_cases hm : labelKeyMatches a l = true
      · rw [List.find?_cons_of_pos _ hm, List.find?_cons_of_pos _ hm]
      · have hmf : labelKeyMatches a l = false := by simpa using hm
        rw [List.find?_cons_of_neg _ (by simp [hmf]),
          List.find?_cons_of_neg _ (by simp [hmf])]
        apply ih
        intro hmem
        rcases List.mem_cons.mp hmem with he | he
        · apply hm
          simp only [Prod.mk.injEq] at he
          obtain ⟨h1, h2, h3⟩ := he
          unfold labelKeyMatches
          simp [h1, h2, h3]
        · exact hs he

/-! ## Lemmas about the activity-data construction -/

theorem mapOrFail_mem (g : α → Option β) (xs : List α) (ys : List β)
    (h : mapOrFail g xs = some ys) : ∀ y ∈ ys, ∃ x ∈ xs, g x = some y := by
  induction xs generalizing ys with
  | nil =>
    have : ([] : List β) = ys := Option.some.inj h
    subst this
    intro y hy
    cases hy
  | cons x xs ih =>
    unfold mapOrFail at h
    cases hg : g x with
    | none => rw [hg] at h; cases h
    | some y0 =>
      rw [hg] at h
      cases hr : mapOrFail g xs with
      | none => rw [hr] at h; cases h
      | some ys0 =>
        rw [hr] at h
        have : y0 :: ys0 = ys := Option.some.inj h
        subst this
        intro y hy
        rcases List.mem_cons.mp hy with h1 | h1
        · subst h1
          exact ⟨x, List.mem_cons_self x xs, hg⟩
        · obtain ⟨x', hx', hgx'⟩ := ih ys0 hr y h1
          exact ⟨x', List.mem_cons_of_mem _ hx', hgx'⟩

theorem makeActivityData_mem (ds : Dataset) (rows : List ActivityRow)
    (h : makeActivityData ds = some rows) :
    ∀ a ∈ rows, ∃ u ∈ getUserIds ds, ∃ f ∈ getActivityFilesForUser u,
      a.id = u.name ++ "-" ++ stem f.name := by
  unfold makeActivityData at h
  cases hm : mapOrFail
      (fun u => mapOrFail (makeActivityFromFile u.name) (getActivityFilesForUser u))
      (getUserIds ds) with
  | none => rw [hm] at h; cases h
  | some perUser =>
    rw [hm] at h
    have : perUser.flatten = rows := Option.some.inj h
    subst this
    intro a ha
    obtain ⟨l, hl, hal⟩ := List.mem_flatten.mp ha
    obtain ⟨u, hu, hgu⟩ := mapOrFail_mem _ _ _ hm l hl
    obtain ⟨f, hf, hgf⟩ := mapOrFail_mem _ _ _ hgu a hal
    refine ⟨u, hu, f, hf, ?hid⟩
    unfold makeActivityFromFile at hgf
    cases hd : f.lines.drop 6 with
    | nil => rw [hd] at hgf; cases hgf
    | cons r rs =>
      rw [hd] at hgf
      have := Option.some.inj hgf
      rw [← this]
      rfl

/-! ## Lemmas about chronological order -/

theorem pairwise_head_le_getLast (r : SourceLine) (rs : List SourceLine)
    (h : List.Pairwise (fun p q : SourceLine => p.dt ≤ q.dt) (r :: rs)) :
    r.dt ≤ ((r :: rs).getLast (List.cons_ne_nil r rs)).dt := by
  cases rs with
  | nil => exact le_refl _
  | cons s ss =>
    have h1 : ∀ x ∈ s :: ss, r.dt ≤ x.dt := (List.pairwise_cons.mp h).1
    have h2 : (s :: ss).getLast (List.cons_ne_nil s ss) ∈ s :: ss := List.getLast_mem _
    rw [List.getLast_cons (List.cons_ne_nil s ss)]
    exact h1 _ h2

theorem mongoImportFiles_start_le_end (limit uid : Nat) (padded : String)
    (files : List ActivityFile) :
    ∀ (gen : Nat) (as : List MActivity) (ts : List MTrackPoint) (g : Nat),
      mongoImportFiles limit uid padded gen files = some (as, ts, g) →
      (∀ f ∈ files, List.Pairwise (fun p q : SourceLine => p.dt ≤ q.dt) (f.lines.drop 6)) →
      ∀ a ∈ as, a.start_dt ≤ a.end_dt := by
  induction files with
  | nil =>
    intro gen as ts g h hf a ha
    have : (([], [], gen) : List MActivity × List MTrackPoint × Nat) = (as, ts, g) :=
      Option.some.inj h
    obtain ⟨h1, _, _⟩ : ([] : List MActivity) = as ∧ ([] : List MTrackPoint) = ts ∧ gen = g := by
      simpa using this
    subst h1
    cases ha
  | cons f rest ih =>
    intro gen as ts g h hf a ha
    unfold mongoImportFiles at h
    by_cases hlim : f.lines.length ≤ limit + 6
    · rw [if_pos hlim] at h
      cases hd : f.lines.drop 6 with
      | nil => rw [hd] at h; cases h
      | cons r rs =>
        rw [hd] at h
        cases hrec : mongoImportFiles limit uid padded (gen + 1) rest with
        | none => rw [hrec] at h; cases h
        | some res =>
          obtain ⟨as1, ts1, g1⟩ := res
          rw [hrec] at h
          have h' := Option.some.inj h
          obtain ⟨h1, h2, h3⟩ :
              ({ mongoId := gen, user_id := uid, start_dt := r.dt
                 end_dt := ((r :: rs).getLast (List.cons_ne_nil r rs)).dt } : MActivity) :: as1 = as
              ∧ (r :: rs).map (fun p =>
                  ({ activity_id := gen, user_id := padded, latitude := p.latitude
                     longitude := p.longitude, altitude := p.altitude, dt := p.dt } : MTrackPoint)) ++ ts1 = ts
              ∧ g1 = g := by
            simpa using h'
          subst h1
          rcases List.mem_cons.mp ha with h4 | h4
          · subst h4
            have hsorted := hf f (List.mem_cons_self f rest)
            rw [hd] at hsorted
            exact pairwise_head_le_getLast r rs hsorted
          · exact ih (gen + 1) as1 ts1 g1 hrec
              (fun f' h' => hf f' (List.mem_cons_of_mem _ h')) a h4
    · rw [if_neg hlim] at h
      exact ih gen as ts g h (fun f' h' => hf f' (List.mem_cons_of_mem _ h')) a ha

/-! ## Lemmas about `seed` -/

theorem seed_true_eq (ds : Dataset) (s : RelStore) (rows : List ActivityRow)
    (hmk : makeActivityData ds = some rows) :
    seed true ds s = (seedTrackPoints ds { seedUsers ds s with
      activities := updateActivityTransportationModes ds
        (rows.foldl insertIgnoreActivity (seedUsers ds s).activities) }, none) := by
  have hact : seedActivities ds (seedUsers ds s) = some { seedUsers ds s with
      activities := updateActivityTransportationModes ds
        (rows.foldl insertIgnoreActivity (seedUsers ds s).activities) } := by
    show (match makeActivityData ds with
          | none => none
          | some rows' => some { seedUsers ds s with
              activities := updateActivityTransportationModes ds
                (rows'.foldl insertIgnoreActivity (seedUsers ds s).activities) })
        = _
    rw [hmk]
  show (match seedActivities ds (seedUsers ds s) with
        | none => (seedUsers ds s, some SeedError.indexError)
        | some s2 => (seedTrackPoints ds s2, none))
      = _
  rw [hact]

theorem seed_repeat_general (ds : Dataset) (rows : List ActivityRow) (s1 : RelStore)
    (hmk : makeActivityData ds = some rows)
    (hu : (userSeedData ds).foldl upsertUser s1.users = s1.users)
    (ha1 : rows.foldl insertIgnoreActivity s1.activities = s1.activities)
    (ha2 : updateActivityTransportationModes ds s1.activities = s1.activities) :
    seed true ds s1 = ({ s1 with trackPoints := s1.trackPoints ++ trackPointSeedData ds }, none) := by
  rw [seed_true_eq ds s1 rows hmk]
  have hUsers : seedUsers ds s1 = s1 := by
    show { s1 with users := (userSeedData ds).foldl upsertUser s1.users } = s1
    rw [hu]
  rw [hUsers, ha1, ha2]
  have hfin : seedTrackPoints ds { s1 with activities := s1.activities }
      = { s1 with trackPoints := s1.trackPoints ++ trackPointSeedData ds } := by
    show { s1 with trackPoints :=
        (chunks 120000 (trackPointSeedData ds)).foldl (fun acc c => acc ++ c) s1.trackPoints } = _
    rw [foldl_append_eq, chunks_flatten (by norm_num)]
  rw [hfin]

/-! ## Claim theorems -/

/-- C4: an activity file enters the import iff its number of data rows
(total lines minus the 6 header lines) is at most the line limit: the
relational filter keeps exactly the files of the user's directory with at
most 2500 data rows, the document-path condition `total ≤ limit + 6` is the
same test, a file the limit excludes is skipped silently by the document
importer (same result, no error), a file with exactly 2500 data rows is
included and one with 2501 data rows is excluded. -/
theorem c4_activity_file_filter :
    (∀ (u : UserDir) (f : ActivityFile),
        f ∈ getActivityFilesForUser u ↔ f ∈ u.files ∧ f.lines.length - 6 ≤ 2500)
    ∧ (∀ (limit : Nat) (f : ActivityFile),
        f.lines.length ≤ limit + 6 ↔ f.lines.length - 6 ≤ limit)
    ∧ (∀ (limit uid : Nat) (padded : String) (gen : Nat) (f : ActivityFile)
          (rest : List ActivityFile), limit < f.lines.length - 6 →
        mongoImportFiles limit uid padded gen (f :: rest)
          = mongoImportFiles limit uid padded gen rest)
    ∧ file2500 ∈ getActivityFilesForUser { name := "000", files := [file2500, file2501], labels := [] }
    ∧ ¬ file2501 ∈ getActivityFilesForUser { name := "000", files := [file2500, file2501], labels := [] } := by
  refine ⟨?hrel, ?harith, ?hskip, ?hin, ?hout⟩
  case hrel =>
    intro u f
    unfold getActivityFilesForUser
    rw [List.mem_filter]
    have hlen : (f.lines.drop 6).length = f.lines.length - 6 := List.length_drop 6 f.lines
    constructor
    · rintro ⟨hmem, hdec⟩
      exact ⟨hmem, by rw [← hlen]; exact of_decide_eq_true hdec⟩
    · rintro ⟨hmem, hle⟩
      exact ⟨hmem, decide_eq_true (by rw [hlen]; exact hle)⟩
  case harith =>
    intro limit f
    omega
  case hskip =>
    intro limit uid padded gen f rest h
    show (if f.lines.length ≤ limit + 6 then
            match f.lines.drop 6 with
            | [] => none
            | r :: rs =>
              match mongoImportFiles limit uid padded (gen + 1) rest with
              | some (as, ts, g) =>
                some ({ mongoId := gen, user_id := uid, start_dt := r.dt
                        end_dt := ((r :: rs).getLast (List.cons_ne_nil r rs)).dt } :: as,
                      (r :: rs).map (fun p =>
                        { activity_id := gen, user_id := padded, latitude := p.latitude
                          longitude := p.longitude, altitude := p.altitude, dt := p.dt }) ++ ts,
                      g)
              | none => none
          else mongoImportFiles limit uid padded gen rest)
        = mongoImportFiles limit uid padded gen rest
    rw [if_neg (by omega)]
  case hin =>
    have h1 : decide (((file2500.lines.drop 6).length ≤ 2500)) = true := by
      rw [decide_eq_true_eq,
        show file2500.lines = List.replicate 2506 headerLine from rfl,
        List.length_drop, List.length_replicate]
    unfold getActivityFilesForUser
    rw [List.mem_filter]
    exact ⟨List.mem_cons_self _ _, h1⟩
  case hout =>
    have h2 : decide (((file2501.lines.drop 6).length ≤ 2500)) = false := by
      rw [decide_eq_false_iff_not,
        show file2501.lines = List.replicate 2507 headerLine from rfl,
        List.length_drop, List.length_replicate]
      norm_num
    intro hmem
    unfold getActivityFilesForUser at hmem
    rw [List.mem_filter] at hmem
    rw [h2] at hmem
    exact absurd hmem.2 (by simp)

/-- C4 witness: a concrete file over the limit is skipped by the document
importer with no error. -/
theorem c4_activity_file_filter_witness :
    2500 < file2501.lines.length - 6
    ∧ mongoImportFiles 2500 0 "000" 0 [file2501] = mongoImportFiles 2500 0 "000" 0 [] :=
  have h : 2500 < file2501.lines.length - 6 := by
    rw [show file2501.lines = List.replicate 2507 headerLine from rfl, List.length_replicate]
    norm_num
  ⟨h, c4_activity_file_filter.2.2.1 2500 0 "000" 0 file2501 [] h⟩

/-- C5: `migrate` runs the statements sequentially inside one transaction;
starting from the `Uninitialized` state (`migrated = false`) the flag
becomes `true` exactly when every statement succeeds, and the committed
statements are all of them on success and none on failure (atomic
rollback). -/
theorem c5_migrate_atomicity :
    (∀ stmts : List Bool, runMigrations stmts = stmts.all (fun st => st))
    ∧ (∀ stmts : List Bool, (migrate false stmts).migrated = stmts.all (fun st => st))
    ∧ (∀ stmts : List Bool,
        (migrate false stmts).committed = if stmts.all (fun st => st) then stmts else []) := by
  have hall : ∀ stmts : List Bool, runMigrations stmts = stmts.all (fun st => st) := by
    intro stmts
    induction stmts with
    | nil => rfl
    | cons st rest ih => cases st <;> simp [runMigrations, ih]
  refine ⟨hall, fun stmts => ?hm, fun stmts => ?hcom⟩
  case hm =>
    by_cases hc : stmts.all (fun st => st) = true
    · unfold migrate
      rw [hall, hc]
      simp
    · have hcf : stmts.all (fun st => st) = false := by simpa using hc
      unfold migrate
      rw [hall, hcf]
      simp
  case hcom =>
    by_cases hc : stmts.all (fun st => st) = true
    · unfold migrate
      rw [hall, hc]
      simp
    · have hcf : stmts.all (fun st => st) = false := by simpa using hc
      unfold migrate
      rw [hall, hcf]
      simp

/-- C6: calling `seed` while the migrated flag is `false` fails fast with
the precondition error and returns the store unchanged — no stage runs and
nothing is written. -/
theorem c6_seed_precondition :
    ∀ (ds : Dataset) (s : RelStore), seed false ds s = (s, some SeedError.precondition) := by
  intro ds s
  rfl

/-- C8: the batch writer slices the record list into consecutive chunks of
120000: their concatenation in write order is the original list, each chunk
is full except possibly the last (the chunk sizes are `min 120000 (n − i·120000)`
at offsets `i·120000`), `seed_track_points` therefore appends exactly the
built data, and 250000 records produce exactly 3 write calls of sizes
120000, 120000 and 10000. -/
theorem c8_batch_chunking :
    (∀ xs : List TrackPointRow, (chunks 120000 xs).flatten = xs)
    ∧ (∀ xs : List TrackPointRow, (chunks 120000 xs).map List.length
        = (List.range ((xs.length + 120000 - 1) / 120000)).map
            (fun i => min 120000 (xs.length - i * 120000)))
    ∧ (∀ (ds : Dataset) (s : RelStore),
        (seedTrackPoints ds s).trackPoints = s.trackPoints ++ trackPointSeedData ds)
    ∧ ((chunks 120000 (List.replicate 250000 ())).map List.length = [120000, 120000, 10000])
    ∧ ((chunks 120000 (List.replicate 250000 ())).length = 3) := by
  refine ⟨fun xs => chunks_flatten (by norm_num) xs, fun xs => chunks_map_length 120000 xs,
    ?hseed, ?hsizes, ?hcount⟩
  case hseed =>
    intro ds s
    show (chunks 120000 (trackPointSeedData ds)).foldl (fun acc c => acc ++ c) s.trackPoints = _
    rw [foldl_append_eq, chunks_flatten (by norm_num)]
  case hsizes =>
    rw [chunks_map_length, List.length_replicate]
    decide
  case hcount =>
    show ((List.range (((List.replicate 250000 ()).length + 120000 - 1) / 120000)).map
      (fun i => ((List.replicate 250000 ()).drop (i * 120000)).take 120000)).length = 3
    rw [List.length_map, List.length_range, List.length_replicate]

/-- C1 counterexample: the claim says an activity receives a mode iff a
label matches its start and end exactly on both endpoints.  On the
relational path the label `(5, 25, walk)` — equal on neither endpoint —
is assigned to the activity spanning `(10, 20)`, because the `UPDATE`'s
`WHERE` clause tests containment (`start_datetime >= label.start AND
end_datetime <= label.end`), not equality. -/
theorem c1_label_matching_counterexample :
    updateActivityTransportationModes
        { users := [{ name := "010", files := []
                      labels := [{ start_dt := 5, end_dt := 25, mode := "walk" }] }]
          labeledIds := ["010"] }
        [{ id := "010-x", user_id := "010", start_dt := 10, end_dt := 20
           transportation_mode := none }]
      = [{ id := "010-x", user_id := "010", start_dt := 10, end_dt := 20
           transportation_mode := some "walk" }]
    ∧ ((5 : Nat) ≠ 10 ∧ (25 : Nat) ≠ 20) := by
  constructor
  · decide
  · decide

/-- C1 amended: on the document path the merge behaves exactly as the claim
says — each activity receives the mode of the first label row whose start,
end and user are all exactly equal (drop-duplicates keeps the first
occurrence per key), and the empty mode otherwise.  On the relational path
the `UPDATE` instead assigns the mode of the last label, in
labeled-ids/file order, whose user matches and whose interval contains the
activity's interval; an activity matched by no label keeps its previous
(NULL) mode. -/
theorem c1_label_matching_amended :
    (∀ (labels : List MLabel) (acts : List MActivity),
        addTransportationModeToActivities labels acts
          = exactMatchTransportationModes labels acts)
    ∧ (∀ (labels : List RelLabel) (acts : List ActivityRow),
        executeLabelUpdates labels acts = lastContainingLabelModes labels acts)
    ∧ (∀ (ds : Dataset) (acts : List ActivityRow),
        updateActivityTransportationModes ds acts
          = lastContainingLabelModes (relationalLabels ds) acts) := by
  have hmongo : ∀ (labels : List MLabel) (acts : List MActivity),
      addTransportationModeToActivities labels acts
        = exactMatchTransportationModes labels acts := by
    intro labels acts
    unfold addTransportationModeToActivities exactMatchTransportationModes
    apply List.map_congr_left
    intro a _
    rw [find_dropDuplicateLabels a labels [] (by simp)]
  have hrel : ∀ (labels : List RelLabel) (acts : List ActivityRow),
      executeLabelUpdates labels acts = lastContainingLabelModes labels acts := by
    intro labels acts
    rw [executeLabelUpdates_eq_map]
    unfold lastContainingLabelModes
    exact List.map_congr_left (fun a _ => rowUpdate_eq labels a)
  exact ⟨hmongo, hrel, fun ds acts => hrel (relationalLabels ds) acts⟩

/-- C2 counterexample: the claim says a repeated relational `seed` leaves
every table's row count unchanged.  Re-seeding `dsOne` doubles the
`TrackPoint` table (plain `INSERT`, no upsert): 2 rows after the first run,
4 after the second. -/
theorem c2_repeat_import_counterexample :
    (seed true dsOne RelStore.empty).1.trackPoints.length = 2
    ∧ (seed true dsOne (seed true dsOne RelStore.empty).1).1.trackPoints.length = 4
    ∧ (seed true dsOne (seed true dsOne RelStore.empty).1).1.trackPoints.length
        ≠ (seed true dsOne RelStore.empty).1.trackPoints.length := by
  refine ⟨by decide, by decide, by decide⟩

/-- C2 amended: repeating the relational `seed` without `wipe` leaves the
`User` and `Activity` tables unchanged (upsert / insert-ignore plus an
idempotent mode backfill) but appends a second copy of every track point,
because `seed_track_points` uses a plain `INSERT`; on the document path a
repeated import while collections exist aborts with the already-imported
warning and performs no store mutation. -/
theorem c2_repeat_import_amended :
    (∀ (ds : Dataset) (rows : List ActivityRow) (s1 : RelStore),
        makeActivityData ds = some rows →
        seed true ds RelStore.empty = (s1, none) →
        seed true ds s1
          = ({ s1 with trackPoints := s1.trackPoints ++ trackPointSeedData ds }, none))
    ∧ (∀ (limit : Nat) (ds : Dataset) (gen : Nat) (s : MongoStore),
        imported s = true →
        importWithBackreferences limit ds gen s
          = (s, gen, some MongoImportError.alreadyImported)) := by
  constructor
  · intro ds rows s1 hmk h
    rw [seed_true_eq ds RelStore.empty rows hmk] at h
    injection h with hs1 hsnd
    have hu : (userSeedData ds).foldl upsertUser s1.users = s1.users := by
      rw [← hs1]
      exact foldl_upsert_idem (userSeedData ds) []
    have ha1 : rows.foldl insertIgnoreActivity s1.activities = s1.activities := by
      rw [← hs1]
      apply foldl_insertIgnore_of_present
      intro a ha
      show (executeLabelUpdates (relationalLabels ds)
        (rows.foldl insertIgnoreActivity RelStore.empty.activities)).any
          (fun b => b.id == a.id) = true
      rw [executeLabelUpdates_any_id]
      exact foldl_insertIgnore_present rows _ a ha
    have ha2 : updateActivityTransportationModes ds s1.activities = s1.activities := by
      rw [← hs1]
      exact executeLabelUpdates_idem (relationalLabels ds) _
    exact seed_repeat_general ds rows s1 hmk hu ha1 ha2
  · intro limit ds gen s h
    show (if imported s = true then (s, gen, some MongoImportError.alreadyImported)
          else _) = _
    rw [if_pos h]

/-- C2 witness: on `dsOne` the first seed succeeds, the second seed leaves
users and activities unchanged and appends the track points again, and the
document import aborts unchanged on a store whose collections exist. -/
theorem c2_repeat_import_witness :
    makeActivityData dsOne = some dsOneRows
    ∧ seed true dsOne RelStore.empty = (relSeedOnce, none)
    ∧ seed true dsOne relSeedOnce
        = ({ relSeedOnce with
             trackPoints := relSeedOnce.trackPoints ++ trackPointSeedData dsOne }, none)
    ∧ imported mongoStoreExisting = true
    ∧ importWithBackreferences 2500 dsOne 0 mongoStoreExisting
        = (mongoStoreExisting, 0, some MongoImportError.alreadyImported) :=
  ⟨by decide, by decide,
    c2_repeat_import_amended.1 dsOne dsOneRows relSeedOnce (by decide) (by decide),
    by decide,
    c2_repeat_import_amended.2 2500 dsOne 0 mongoStoreExisting (by decide)⟩

/-- C3 counterexample: the claim says every included activity's identifier
is the deterministic string `user-stem(file)` so that two imports of the
same source assign the same identifier.  On the document path the identifier
is a fresh `ObjectId` drawn from the generator: two runs of the import over
the identical dataset `dsOne`, holding different generator states, assign
different identifiers to the same activity. -/
theorem c3_activity_identifier_counterexample :
    mongoActivityIds dsOne 0 = some [0]
    ∧ mongoActivityIds dsOne 1 = some [1]
    ∧ mongoActivityIds dsOne 0 ≠ mongoActivityIds dsOne 1 := by
  refine ⟨by decide, by decide, by decide⟩

/-- C3 amended: on the relational path the claim holds — every activity row
built by `_make_activity_data` carries the identifier
`user_id ++ "-" ++ stem(file name)`, a pure function of the owning user and
source file, hence identical across repeated imports; the document path
(see the counterexample) uses generator-fresh ObjectIds instead. -/
theorem c3_activity_identifier_amended :
    ∀ (ds : Dataset) (rows : List ActivityRow), makeActivityData ds = some rows →
      ∀ a ∈ rows, ∃ u ∈ getUserIds ds, ∃ f ∈ getActivityFilesForUser u,
        a.id = u.name ++ "-" ++ stem f.name :=
  makeActivityData_mem

/-- C3 witness: the single activity row of `dsOne` carries the derived
identifier `"010-20081023025304"`. -/
theorem c3_activity_identifier_witness :
    ∃ u ∈ getUserIds dsOne, ∃ f ∈ getActivityFilesForUser u,
      ({ id := "010-20081023025304", user_id := "010", start_dt := 100, end_dt := 200
         transportation_mode := none } : ActivityRow).id = u.name ++ "-" ++ stem f.name :=
  c3_activity_identifier_amended dsOne dsOneRows (by decide) _ (by decide)

/-- C7: the backreference builder attaches to every activity exactly the
`_id`s of the track points whose `activity_id` equals that activity's `_id`
(membership in both directions), the empty list — never a missing field —
when there are none, with no duplicate when the track-point ids are
distinct; symmetrically every user document carries exactly the `_id`s of
the activities whose `user_id` equals the user's `_id`; and both builders
keep every parent row (ids preserved in order), so no child is orphaned from
its parent document. -/
theorem c7_backreferences :
    (∀ (acts : List MActivityM) (tps : List MTrackPointI),
      ∀ a ∈ addBackReferenceForTrackPointsOnActivities acts tps,
        (∀ x : Nat, x ∈ a.track_points
            ↔ ∃ tp ∈ tps, tp.activity_id = a.mongoId ∧ tp.mongoId = x)
        ∧ ((∀ tp ∈ tps, tp.activity_id ≠ a.mongoId) → a.track_points = [])
        ∧ ((tps.map MTrackPointI.mongoId).Nodup → a.track_points.Nodup))
    ∧ (∀ (users : List MUser) (acts : List MActivityM),
      ∀ u ∈ addBackReferenceForActivitiesOnUsers users acts,
        (∀ x : Nat, x ∈ u.activities
            ↔ ∃ b ∈ acts, b.user_id = u.mongoId ∧ b.mongoId = x)
        ∧ ((∀ b ∈ acts, b.user_id ≠ u.mongoId) → u.activities = [])
        ∧ ((acts.map MActivityM.mongoId).Nodup → u.activities.Nodup))
    ∧ (∀ (acts : List MActivityM) (tps : List MTrackPointI),
        (addBackReferenceForTrackPointsOnActivities acts tps).map (fun a => a.mongoId)
          = acts.map (fun a => a.mongoId))
    ∧ (∀ (users : List MUser) (acts : List MActivityM),
        (addBackReferenceForActivitiesOnUsers users acts).map (fun u => u.mongoId)
          = users.map (fun u => u.mongoId)) := by
  refine ⟨?hact, ?husers, ?hactIds, ?huserIds⟩
  case hact =>
    intro acts tps a ha
    obtain ⟨a0, ha0, rfl⟩ := List.mem_map.mp ha
    exact ⟨fun x => mem_groupedChildIds _ _ _ tps x,
      fun h => groupedChildIds_eq_nil _ _ _ tps h,
      fun h => groupedChildIds_nodup _ _ _ tps h⟩
  case husers =>
    intro users acts u hu
    obtain ⟨u0, hu0, rfl⟩ := List.mem_map.mp hu
    exact ⟨fun x => mem_groupedChildIds _ _ _ acts x,
      fun h => groupedChildIds_eq_nil _ _ _ acts h,
      fun h => groupedChildIds_nodup _ _ _ acts h⟩
  case hactIds =>
    intro acts tps
    unfold addBackReferenceForTrackPointsOnActivities
    rw [List.map_map]
    exact List.map_congr_left (fun a _ => rfl)
  case huserIds =>
    intro users acts
    unfold addBackReferenceForActivitiesOnUsers
    rw [List.map_map]
    exact List.map_congr_left (fun u _ => rfl)

/-- C7 witness: on a concrete one-activity, two-track-point frame the
backreference list is `[21, 22]`, duplicate-free, membership matches the
owning ids; with no track points the list is empty; and the user document
carries `[7]`. -/
theorem c7_backreferences_witness :
    (((21 : Nat) ∈ actHeadW.track_points
        ↔ ∃ tp ∈ tpsW, tp.activity_id = actHeadW.mongoId ∧ tp.mongoId = 21)
      ∧ actHeadW.track_points.Nodup)
    ∧ actHeadW0.track_points = []
    ∧ (((7 : Nat) ∈ userHeadW.activities
        ↔ ∃ b ∈ [actW], b.user_id = userHeadW.mongoId ∧ b.mongoId = 7)
      ∧ userHeadW.activities.Nodup) := by
  have h1 := c7_backreferences.1 [actW] tpsW actHeadW (by decide)
  have h2 := c7_backreferences.1 [actW] [] actHeadW0 (by decide)
  have h3 := c7_backreferences.2.1 [userW] [actW] userHeadW (by decide)
  exact ⟨⟨h1.1 21, h1.2.2 (by decide)⟩, h2.2.1 (by decide), ⟨h3.1 7, h3.2.2 (by decide)⟩⟩

/-- C9 counterexample: the claim says every created activity has
start ≤ end.  The construction takes the first and last data rows verbatim,
so a file whose rows are in reverse chronological order yields
start = 5 > end = 3. -/
theorem c9_start_le_end_counterexample :
    makeActivityFromFile "000" fileDescending
      = some { id := "000-20090101000000", user_id := "000", start_dt := 5, end_dt := 3
               transportation_mode := none }
    ∧ ¬ (5 : Nat) ≤ 3 := by
  refine ⟨by decide, by decide⟩

/-- C9 amended: both importers derive the activity's start from the first
data row and its end from the last data row — never independently supplied —
and therefore start ≤ end holds exactly under the (unstated) precondition
that the file's data rows are in chronological order, on the relational
construction and along the whole document-path file loop. -/
theorem c9_start_le_end_amended :
    (∀ (userId : String) (f : ActivityFile) (a : ActivityRow),
        makeActivityFromFile userId f = some a →
        (∃ r rs, f.lines.drop 6 = r :: rs ∧ a.start_dt = r.dt
          ∧ a.end_dt = ((r :: rs).getLast (List.cons_ne_nil r rs)).dt)
        ∧ (List.Pairwise (fun p q : SourceLine => p.dt ≤ q.dt) (f.lines.drop 6) →
            a.start_dt ≤ a.end_dt))
    ∧ (∀ (limit uid : Nat) (padded : String) (gen : Nat) (files : List ActivityFile)
          (as : List MActivity) (ts : List MTrackPoint) (g : Nat),
        mongoImportFiles limit uid padded gen files = some (as, ts, g) →
        (∀ f ∈ files, List.Pairwise (fun p q : SourceLine => p.dt ≤ q.dt) (f.lines.drop 6)) →
        ∀ a ∈ as, a.start_dt ≤ a.end_dt) := by
  constructor
  · intro userId f a h
    unfold makeActivityFromFile at h
    cases hd : f.lines.drop 6 with
    | nil => rw [hd] at h; cases h
    | cons r rs =>
      rw [hd] at h
      have ha := Option.some.inj h
      constructor
      · exact ⟨r, rs, rfl, by rw [← ha], by rw [← ha]⟩
      · intro hp
        rw [← ha]
        exact pairwise_head_le_getLast r rs hp
  · intro limit uid padded gen files as ts g h hp
    exact mongoImportFiles_start_le_end limit uid padded files gen as ts g h hp

/-- C9 witness: the two-point chronological file yields start 100 ≤ end 200,
derived from its first and last rows. -/
theorem c9_start_le_end_witness :
    (∃ r rs, fileTwoPoints.lines.drop 6 = r :: rs ∧ (100 : Nat) = r.dt
      ∧ (200 : Nat) = ((r :: rs).getLast (List.cons_ne_nil r rs)).dt)
    ∧ (100 : Nat) ≤ 200 := by
  have h := c9_start_le_end_amended.1 "010" fileTwoPoints
    { id := "010-20081023025304", user_id := "010", start_dt := 100, end_dt := 200
      transportation_mode := none } (by decide)
  exact ⟨h.1, h.2 (by decide)⟩

/-- C10: a six-line activity file (zero data rows) passes the line-count
filter, yet building its activity record indexes the first data row and
fails (`IndexError`, modelled as `none`); through the public `seed` the
whole run aborts after the users stage with the index error; and the
construction is total exactly under the precondition that every included
file has at least one data row. -/
theorem c10_empty_activity_file_crash :
    fileNoPoints ∈ getActivityFilesForUser { name := "000", files := [fileNoPoints], labels := [] }
    ∧ makeActivityFromFile "000" fileNoPoints = none
    ∧ seed true dsEmptyFile RelStore.empty
        = ({ users := [{ id := "000", has_labels := false }], activities := [], trackPoints := [] },
           some SeedError.indexError)
    ∧ (∀ (userId : String) (f : ActivityFile), f.lines.drop 6 ≠ [] →
        (makeActivityFromFile userId f).isSome = true) := by
  refine ⟨by decide, by decide, by decide, ?htotal⟩
  intro userId f h
  unfold makeActivityFromFile
  cases hd : f.lines.drop 6 with
  | nil => exact absurd hd h
  | cons r rs => rfl

/-- C10 witness: a file with data rows is constructed successfully. -/
theorem c10_empty_activity_file_witness :
    fileTwoPoints.lines.drop 6 ≠ []
    ∧ (makeActivityFromFile "010" fileTwoPoints).isSome = true :=
  ⟨by decide, c10_empty_activity_file_crash.2.2.2 "010" fileTwoPoints (by decide)⟩

end Geolife
